import Mathlib

/-!
Shallow embedding of the request handler in `src/api/moderate.js` of the
`language-profanity-checker` repository, together with proofs about it.

Conventions of the embedding:
* JavaScript numbers are modelled as `Option Rat`: `none` stands for `NaN`,
  `some q` for a finite value.  The scores and thresholds appearing in this
  program are finite decimals, so rationals are exact for them.
* The two external collaborators (the `leo-profanity` lexicon and the TFJS
  toxicity classifier) are opaque in the source as well; they are passed to
  the embedded handler as function parameters.  A classifier failure
  (`toxicity.load` or `model.classify` throwing) is modelled by the
  classifier parameter returning `Except.error`.
* `toLowerCase` is modelled on the basic-latin fragment (the only fragment
  the substitution table and the character filter of the source interact
  with); `Number(...)` string parsing is modelled on signed decimal
  literals, which covers every value the configuration code compares
  against its defaults.
-/

namespace Moderate

/-- A JavaScript number: `none` models `NaN`, `some q` a finite value. -/
abbrev JSNum := Option Rat

/-- The character class of the JavaScript regex `\s` (code points). -/
def jsWs (c : Char) : Bool :=
  let n := c.toNat
  (9 ≤ n && n ≤ 13) || n == 32 || n == 160 || n == 5760 ||
  (8192 ≤ n && n ≤ 8202) || n == 8232 || n == 8233 || n == 8239 ||
  n == 8287 || n == 12288 || n == 65279

/-- ASCII lower-case letter, the `a-z` part of the filter class. -/
def lowAlpha (c : Char) : Bool := 97 ≤ c.toNat && c.toNat ≤ 122

/-- ASCII digit, the `0-9` part of the filter class. -/
def digitCh (c : Char) : Bool := 48 ≤ c.toNat && c.toNat ≤ 57

/-- Basic-latin fragment of `String.prototype.toLowerCase`, per character. -/
def lowerCh (c : Char) : Char :=
  if 65 ≤ c.toNat && c.toNat ≤ 90 then Char.ofNat (c.toNat + 32) else c

/-- `.replace(/[!¡1|i]/g, "i")`, per character. -/
def substI (c : Char) : Char :=
  if c == '!' || c == '¡' || c == '1' || c == '|' || c == 'i' then 'i' else c

/-- `.replace(/[@4]/g, "a")`, per character. -/
def substA (c : Char) : Char :=
  if c == '@' || c == '4' then 'a' else c

/-- `.replace(/[$5]/g, "s")`, per character. -/
def substS (c : Char) : Char :=
  if c == '$' || c == '5' then 's' else c

/-- `.replace(/0/g, "o")`, per character. -/
def substO (c : Char) : Char :=
  if c == '0' then 'o' else c

/-- `.replace(/3/g, "e")`, per character. -/
def substE (c : Char) : Char :=
  if c == '3' then 'e' else c

/-- `.replace(/7/g, "t")`, per character. -/
def substT (c : Char) : Char :=
  if c == '7' then 't' else c

/-- The character class kept by the filter `.replace(/[^a-z0-9\s@]/g, " ")`. -/
def goodCh (c : Char) : Bool := lowAlpha c || digitCh c || jsWs c || c == '@'

/-- `.replace(/[^a-z0-9\s@]/g, " ")`, per character. -/
def filterCh (c : Char) : Char := if goodCh c then c else ' '

/--
`.replace(/\s{2,}/g, " ")`: every maximal run of two or more `\s`
characters becomes a single space; a lone whitespace character is kept
as it is.  The boolean mode records whether we are inside a run that has
already been replaced by the single space (so its remaining whitespace
characters are dropped).
-/
def collapseGo : Bool → List Char → List Char
  | _, [] => []
  | true, c :: rest =>
    if jsWs c then collapseGo true rest else c :: collapseGo false rest
  | false, c :: rest =>
    if jsWs c then
      match rest with
      | [] => [c]
      | c₂ :: _ => if jsWs c₂ then ' ' :: collapseGo true rest
                   else c :: collapseGo false rest
    else c :: collapseGo false rest

/-- `.replace(/\s{2,}/g, " ")` on a character list. -/
def collapseWs (l : List Char) : List Char := collapseGo false l

/-- `.trim()` on a character list (JS trims exactly the `\s` class). -/
def trimWs (l : List Char) : List Char :=
  ((l.dropWhile jsWs).reverse.dropWhile jsWs).reverse

/--
The `normalize` function of `src/api/moderate.js`, on character lists:
lower-case, the six single-character substitutions, the character filter,
whitespace-run collapsing, and trimming, in source order.  Each
`.replace` of a single-character class by a single character is a
per-character map.
-/
def normalizeL (l : List Char) : List Char :=
  trimWs (collapseWs
    ((((((((l.map lowerCh).map substI).map substA).map substS).map
      substO).map substE).map substT).map filterCh))

/-- The `normalize` function of `src/api/moderate.js`. -/
def normalize (s : String) : String := ⟨normalizeL s.data⟩

/-- The per-character composition of the lower-casing and the six
substitution rules, in source order. -/
def chSub (c : Char) : Char :=
  substT (substE (substO (substS (substA (substI (lowerCh c))))))

/-! ### Configuration loading -/

/-- The process environment fragment read by the module. -/
structure Env where
  TOXICITY_THRESHOLD : Option String
  TOXICITY_LABELS : Option String
  CORS_ALLOW_ORIGIN : Option String
  FOUL_CUSTOM_WORDS : Option String
deriving DecidableEq

/-- `process.env.X || "d"`: an absent variable is `undefined` (falsy) and
the empty string is falsy, so both fall back to the default string. -/
def envOr (v : Option String) (d : String) : String :=
  match v with
  | none => d
  | some s => if s == "" then d else s

/-- Digit accumulator for decimal parsing. -/
def digitsToNat (l : List Char) : Nat :=
  l.foldl (fun a c => a * 10 + (c.toNat - 48)) 0

/-- Unsigned decimal numeral, optionally with a fractional part
(`"85"`, `"0.85"`, `".85"`, `"85."`); anything else is `NaN`. -/
def parseDec (l : List Char) : JSNum :=
  let ipart := l.takeWhile digitCh
  match l.dropWhile digitCh with
  | [] => if ipart.isEmpty then none else some (digitsToNat ipart)
  | '.' :: frac =>
    if frac.all digitCh then
      if ipart.isEmpty && frac.isEmpty then none
      else some ((digitsToNat ipart : Rat) +
        (digitsToNat frac : Rat) / ((10 : Rat) ^ frac.length))
    else none
  | _ => none

/--
The JavaScript `Number(string)` conversion, modelled on the fragment this
program exercises: surrounding whitespace is ignored, the empty string is
`0`, an optional sign precedes a decimal numeral, and every other string
is `NaN` (`none`).  Exponent, hexadecimal and `Infinity` forms are
outside this fragment.
-/
def jsStringToNumber (s : String) : JSNum :=
  match trimWs s.data with
  | [] => some 0
  | '-' :: r => (parseDec r).map (fun q => -q)
  | '+' :: r => parseDec r
  | r => parseDec r

/-- `const THRESH = Number(process.env.TOXICITY_THRESHOLD || "0.85")`. -/
def THRESH (env : Env) : JSNum :=
  jsStringToNumber (envOr env.TOXICITY_THRESHOLD "0.85")

/-- JS `.trim()` on strings. -/
def jsTrim (s : String) : String := ⟨trimWs s.data⟩

/-- JS `.split(",")` on a character list: `"" → [""]`, `"," → ["", ""]`. -/
def splitComma : List Char → List (List Char)
  | [] => [[]]
  | c :: rest =>
    if c == ',' then [] :: splitComma rest
    else
      match splitComma rest with
      | [] => [[c]]
      | h :: t => (c :: h) :: t

/-- `.split(",").map(s => s.trim()).filter(Boolean)`. -/
def splitTrimFilter (s : String) : List String :=
  (((splitComma s.data).map (fun l => jsTrim ⟨l⟩))).filter (fun t => !(t == ""))

/-- `const LABELS = (process.env.TOXICITY_LABELS || "identity_attack,...")
.split(",").map(s => s.trim()).filter(Boolean)`. -/
def LABELS (env : Env) : List String :=
  splitTrimFilter (envOr env.TOXICITY_LABELS
    "identity_attack,insult,obscene,sexual_explicit,threat,severe_toxicity")

/-- `const CORS_ALLOW_ORIGIN = process.env.CORS_ALLOW_ORIGIN || "*"`. -/
def corsAllowOrigin (env : Env) : String := envOr env.CORS_ALLOW_ORIGIN "*"

/-- `const CUSTOM_WORDS = (process.env.FOUL_CUSTOM_WORDS || "")
.split(",").map(s => s.trim()).filter(Boolean)`. -/
def CUSTOM_WORDS (env : Env) : List String :=
  splitTrimFilter (envOr env.FOUL_CUSTOM_WORDS "")

/-! ### Request and response model -/

/-- A JSON-decoded JavaScript value appearing in a request body field. -/
inductive JSVal where
  | vstr (s : String)
  | vnum (n : JSNum)
  | vbool (b : Bool)
  | vnull
  | vundef
  | vobj
deriving DecidableEq

/-- JavaScript truthiness of a `JSVal`. -/
def jsTruthy : JSVal → Bool
  | .vstr s => !(s == "")
  | .vnum none => false
  | .vnum (some q) => !(q == 0)
  | .vbool b => b
  | .vnull => false
  | .vundef => false
  | .vobj => true

/-- `typeof v === "string"`. -/
def jsIsString : JSVal → Bool
  | .vstr _ => true
  | _ => false

/-- A destructuring default `{ x = d }`: applies exactly when the field is
`undefined`. -/
def jsDefault (v : JSVal) (d : JSVal) : JSVal :=
  match v with
  | .vundef => d
  | _ => v

/-- Fraction digits of `n / d` (with `n < d`), by long division; `fuel`
bounds the number of produced digits. -/
def fracDigitsAux : Nat → Nat → Nat → String
  | 0, _, _ => ""
  | _, 0, _ => ""
  | fuel + 1, n, d =>
    toString (n * 10 / d) ++ fracDigitsAux fuel (n * 10 % d) d

/-- Decimal rendering of a rational, exact on finite decimal expansions of
at most twenty digits (the fragment of JS number printing this program can
produce). -/
def ratToDecimalString (q : Rat) : String :=
  (if q < 0 then "-" else "") ++ toString (q.num.natAbs / q.den) ++
    (let f := fracDigitsAux 20 (q.num.natAbs % q.den) q.den
     if f == "" then "" else "." ++ f)

/-- The JS number-to-string conversion on the modelled fragment. -/
def jsNumToString : JSNum → String
  | none => "NaN"
  | some q => ratToDecimalString q

/-- The template-literal conversion `${v}` (JS ToString). -/
def jsToString : JSVal → String
  | .vstr s => s
  | .vnum n => jsNumToString n
  | .vbool true => "true"
  | .vbool false => "false"
  | .vnull => "null"
  | .vundef => "undefined"
  | .vobj => "[object Object]"

/-- `.toLowerCase()`, per the basic-latin fragment of `lowerCh`. -/
def jsToLower (s : String) : String := ⟨s.data.map lowerCh⟩

/-- `hay.includes(needle)`: substring containment. -/
def jsIncludes (hay needle : String) : Bool :=
  decide (needle.data <:+: hay.data)

/-- The JSON body of a POST request; an absent field is `undefined`. -/
structure Body where
  text : JSVal
  fromUser : JSVal
  botName : JSVal
deriving DecidableEq

/-- An incoming request; `body = none` models a null or undefined body. -/
structure Request where
  method : String
  body : Option Body
deriving DecidableEq

/-- One entry of one classification result, carrying the two-class
probability distribution (`probabilities[1]` is the toxic side). -/
structure PredResult where
  probabilities : List Rat
deriving DecidableEq

/-- One per-label prediction of `model.classify`. -/
structure Pred where
  label : String
  results : List PredResult
deriving DecidableEq

/-- `p.results?.[0]?.probabilities?.[1] ?? 0`. -/
def predScore (p : Pred) : Rat :=
  match p.results.head? with
  | none => 0
  | some r => (r.probabilities.get? 1).getD 0

/-- `score.toFixed(4)` followed by `Number(...)`: rounding to four decimal
places, ties toward the larger value. -/
def round4 (q : Rat) : Rat :=
  ((⌊q * 10000 + 1 / 2⌋ : Int) : Rat) / 10000

/-- The JS comparison `score >= THRESH`: false whenever the threshold is
`NaN`, otherwise the ordinary `≥`. -/
def jsGe (score : Rat) (t : JSNum) : Bool :=
  match t with
  | none => false
  | some tv => decide (tv ≤ score)

/-- `scores[p.label] = v`: JS object assignment keeps the original key
position and overwrites the value, otherwise appends. -/
def insertScore (m : List (String × Rat)) (k : String) (v : Rat) :
    List (String × Rat) :=
  if m.any (fun kv => kv.1 == k) then
    m.map (fun kv => if kv.1 == k then (k, v) else kv)
  else m ++ [(k, v)]

/-- The `for (const p of preds)` loop of the handler: builds the rounded
score map and the `toxicHit` flag (raw score against the threshold). -/
def scoreLoop (lbs : List String) (t : JSNum) (preds : List Pred) :
    List (String × Rat) × Bool :=
  preds.foldl
    (fun acc p =>
      (insertScore acc.1 p.label (round4 (predScore p)),
       acc.2 || (lbs.contains p.label && jsGe (predScore p) t)))
    ([], false)

/-- The possible JSON response bodies of the handler. -/
inductive RespBody where
  | empty
  | errorBody (code : String)
  | skipped (foul : Bool) (skippedFlag : Bool) (reason : String)
  | result (foul : Bool) (input : String) (norm : String)
      (lexiconProfanity : Bool) (toxicityScores : List (String × Rat))
      (threshold : JSNum) (labels : List String)
deriving DecidableEq

/-- An HTTP response: status code and JSON body (CORS headers, which are
set unconditionally, are not modelled). -/
structure Response where
  status : Nat
  body : RespBody
deriving DecidableEq

/-- Projection used after the `typeof text === "string"` guard. -/
def jsStr : JSVal → String
  | .vstr s => s
  | _ => ""

/-- The anti-loop test
`botName && fromUser && fromUser.toLowerCase().includes(botName.toLowerCase())`. -/
def selfSkip (fromUser botName : JSVal) : Bool :=
  jsTruthy botName && jsTruthy fromUser &&
    jsIncludes (jsToLower (jsToString fromUser))
      (jsToLower (jsToString botName))

/--
The exported request handler of `src/api/moderate.js`.  `lexCheck` stands
for `leo.check` (the profanity lexicon, an external collaborator) and
`classify` for `await getModel()` followed by `await model.classify([norm])`;
an `Except.error` models either of these throwing, which the `catch` block
of the source turns into the 500 response.
-/
def handler (env : Env) (lexCheck : String → Bool)
    (classify : String → Except String (List Pred)) (req : Request) :
    Response :=
  if req.method == "OPTIONS" then ⟨204, .empty⟩
  else if !(req.method == "POST") then ⟨405, .errorBody "method_not_allowed"⟩
  else
    let b := req.body.getD ⟨.vundef, .vundef, .vundef⟩
    let text := jsDefault b.text (.vstr "")
    let fromUser := jsDefault b.fromUser (.vstr "")
    let botName := jsDefault b.botName (.vstr "")
    if !(jsTruthy text) || !(jsIsString text) then
      ⟨400, .errorBody "text_required"⟩
    else if selfSkip fromUser botName then
      ⟨200, .skipped false true "self_message"⟩
    else
      let norm := normalize (jsStr text)
      let lexiconProfane := lexCheck norm
      match classify norm with
      | .error _ => ⟨500, .errorBody "moderation_failed"⟩
      | .ok preds =>
        let sh := scoreLoop (LABELS env) (THRESH env) preds
        ⟨200, .result (lexiconProfane || sh.2) (jsStr text) norm
          lexiconProfane sh.1 (THRESH env) (LABELS env)⟩

/-! ### Character-level lemmas about the normalizer -/

/-- `Char.ofNat` evaluates to its argument below the surrogate range. -/
theorem toNat_ofNat_valid (n : Nat) (h : n < 55296) : (Char.ofNat n).toNat = n := by
  rw [Char.ofNat, dif_pos (Or.inl h)]
  simp [Char.ofNatAux, Char.toNat, UInt32.toNat]

/-- Code point of `lowerCh`. -/
theorem lowerCh_toNat (c : Char) :
    (lowerCh c).toNat =
      if 65 ≤ c.toNat && c.toNat ≤ 90 then c.toNat + 32 else c.toNat := by
  unfold lowerCh
  split
  · next h =>
    simp only [Bool.and_eq_true, decide_eq_true_eq] at h
    rw [toNat_ofNat_valid _ (by omega)]
  · rfl

/-- The image of `lowerCh` contains no upper-case basic-latin letter. -/
theorem lowerCh_not_upper (c : Char) :
    ¬(65 ≤ (lowerCh c).toNat ∧ (lowerCh c).toNat ≤ 90) := by
  rw [lowerCh_toNat]
  split
  · next h => simp only [Bool.and_eq_true, decide_eq_true_eq] at h; omega
  · next h =>
    simp only [Bool.and_eq_true, decide_eq_true_eq,
      Decidable.not_and_iff_or_not] at h ⊢
    omega

/-- Lower-casing is idempotent per character. -/
theorem lowerCh_lowerCh (c : Char) : lowerCh (lowerCh c) = lowerCh c := by
  have h := lowerCh_not_upper c
  generalize hd : lowerCh c = d at h ⊢
  unfold lowerCh
  rw [if_neg]
  intro hh
  simp only [Bool.and_eq_true, decide_eq_true_eq] at hh
  exact h hh

/-- A character is inert when every per-character stage of `normalize`
fixes it, it belongs to the kept class, and it is not an at-sign. -/
def inert (c : Char) : Bool :=
  (lowerCh c == c) && (substI c == c) && (substA c == c) && (substS c == c) &&
  (substO c == c) && (substE c == c) && (substT c == c) &&
  goodCh c && !(c == '@')

/-- Every character produced by the substitution-then-filter stages of the
normalizer is inert. -/
theorem inert_filter_chSub (c : Char) : inert (filterCh (chSub c)) = true := by
  unfold chSub
  generalize hd : lowerCh c = t
  have hlow : lowerCh t = t := by rw [← hd]; exact lowerCh_lowerCh c
  by_cases h1 : (t == '!' || t == '¡' || t == '1' || t == '|' || t == 'i') = true
  · simp only [substI, if_pos h1]; decide
  · simp only [substI, if_neg h1]
    by_cases h2 : (t == '@' || t == '4') = true
    · simp only [substA, if_pos h2]; decide
    · simp only [substA, if_neg h2]
      by_cases h3 : (t == '$' || t == '5') = true
      · simp only [substS, if_pos h3]; decide
      · simp only [substS, if_neg h3]
        by_cases h4 : (t == '0') = true
        · simp only [substO, if_pos h4]; decide
        · simp only [substO, if_neg h4]
          by_cases h5 : (t == '3') = true
          · simp only [substE, if_pos h5]; decide
          · simp only [substE, if_neg h5]
            by_cases h6 : (t == '7') = true
            · simp only [substT, if_pos h6]; decide
            · simp only [substT, if_neg h6]
              unfold filterCh
              by_cases hg : goodCh t = true
              · rw [if_pos hg]
                have hI : substI t = t := by simp only [substI, if_neg h1]
                have hA : substA t = t := by simp only [substA, if_neg h2]
                have hS : substS t = t := by simp only [substS, if_neg h3]
                have hO : substO t = t := by simp only [substO, if_neg h4]
                have hE : substE t = t := by simp only [substE, if_neg h5]
                have hT : substT t = t := by simp only [substT, if_neg h6]
                have hat : (t == '@') = false := by
                  cases he : t == '@'
                  · rfl
                  · exact absurd (by rw [he]; rfl :
                      (t == '@' || t == '4') = true) h2
                unfold inert
                rw [hlow, hI, hA, hS, hO, hE, hT, hg, hat]
                simp
              · rw [if_neg hg]; decide

/-! ### List-level lemmas and the normalizer theorems -/


/-- Separation relation: no two adjacent whitespace characters. -/
def wsSep (a b : Char) : Prop := ¬(jsWs a = true ∧ jsWs b = true)

theorem wsSep_of_left {a b : Char} (h : jsWs a = false) : wsSep a b := by
  intro hc; rw [h] at hc; exact Bool.noConfusion hc.1

theorem wsSep_of_right {a b : Char} (h : jsWs b = false) : wsSep a b := by
  intro hc; rw [h] at hc; exact Bool.noConfusion hc.2

theorem collapseGo_false_cons_of_not_ws {c : Char} (rest : List Char)
    (h : jsWs c = false) :
    collapseGo false (c :: rest) = c :: collapseGo false rest := by
  cases rest <;> simp [collapseGo, h]

theorem collapseGo_true_head (l : List Char) :
    ∀ y, (collapseGo true l).head? = some y → jsWs y = false := by
  induction l with
  | nil => intro y hy; cases hy
  | cons c rest ih =>
    intro y hy
    cases hc : jsWs c
    · rw [show collapseGo true (c :: rest) = c :: collapseGo false rest from by
        simp [collapseGo, hc]] at hy
      simp only [List.head?_cons, Option.some.injEq] at hy
      rw [← hy]; exact hc
    · rw [show collapseGo true (c :: rest) = collapseGo true rest from by
        simp [collapseGo, hc]] at hy
      exact ih y hy

theorem chain_collapseGo (l : List Char) :
    ∀ m, List.Chain' wsSep (collapseGo m l) := by
  induction l with
  | nil => intro m; cases m <;> exact List.chain'_nil
  | cons c rest ih =>
    intro m
    cases m
    · cases hc : jsWs c
      · rw [collapseGo_false_cons_of_not_ws rest hc, List.chain'_cons']
        exact ⟨fun y _ => wsSep_of_left hc, ih false⟩
      · cases rest with
        | nil => simp [collapseGo, hc]
        | cons c₂ r₂ =>
          cases hc₂ : jsWs c₂
          · rw [show collapseGo false (c :: c₂ :: r₂) =
                c :: collapseGo false (c₂ :: r₂) from by simp [collapseGo, hc, hc₂],
              List.chain'_cons']
            refine ⟨fun y hy => ?_, ih false⟩
            rw [collapseGo_false_cons_of_not_ws r₂ hc₂] at hy
            simp only [List.head?_cons, Option.mem_def, Option.some.injEq] at hy
            rw [← hy]; exact wsSep_of_right hc₂
          · rw [show collapseGo false (c :: c₂ :: r₂) =
                ' ' :: collapseGo true (c₂ :: r₂) from by simp [collapseGo, hc, hc₂],
              List.chain'_cons']
            exact ⟨fun y hy => wsSep_of_right (collapseGo_true_head _ y hy), ih true⟩
    · cases hc : jsWs c
      · rw [show collapseGo true (c :: rest) = c :: collapseGo false rest from by
          simp [collapseGo, hc], List.chain'_cons']
        exact ⟨fun y _ => wsSep_of_left hc, ih false⟩
      · rw [show collapseGo true (c :: rest) = collapseGo true rest from by
          simp [collapseGo, hc]]
        exact ih true

theorem collapseGo_false_of_chain (l : List Char)
    (h : List.Chain' wsSep l) : collapseGo false l = l := by
  induction l with
  | nil => rfl
  | cons c rest ih =>
    cases hc : jsWs c
    · rw [collapseGo_false_cons_of_not_ws rest hc,
        ih (List.chain'_cons'.mp h).2]
    · cases rest with
      | nil => simp [collapseGo, hc]
      | cons c₂ r₂ =>
        have h12 : wsSep c c₂ := (List.chain'_cons.mp h).1
        cases hc₂ : jsWs c₂
        · rw [show collapseGo false (c :: c₂ :: r₂) =
            c :: collapseGo false (c₂ :: r₂) from by simp [collapseGo, hc, hc₂],
            ih (List.chain'_cons.mp h).2]
        · exact absurd ⟨hc, hc₂⟩ h12

theorem mem_collapseGo {c : Char} (l : List Char) :
    ∀ m, c ∈ collapseGo m l → c ∈ l ∨ c = ' ' := by
  induction l with
  | nil => intro m hm; cases m <;> simp [collapseGo] at hm
  | cons c₁ rest ih =>
    intro m hm
    cases m
    · cases hc : jsWs c₁
      · rw [collapseGo_false_cons_of_not_ws rest hc] at hm
        rcases List.mem_cons.mp hm with h | h
        · exact Or.inl (List.mem_cons.mpr (Or.inl h))
        · rcases ih false h with h2 | h2
          · exact Or.inl (List.mem_cons.mpr (Or.inr h2))
          · exact Or.inr h2
      · cases rest with
        | nil =>
          simp only [collapseGo, hc] at hm
          simp at hm
          exact Or.inl (by simp [hm])
        | cons c₂ r₂ =>
          cases hc₂ : jsWs c₂
          · rw [show collapseGo false (c₁ :: c₂ :: r₂) =
              c₁ :: collapseGo false (c₂ :: r₂) from by simp [collapseGo, hc, hc₂]] at hm
            rcases List.mem_cons.mp hm with h | h
            · exact Or.inl (List.mem_cons.mpr (Or.inl h))
            · rcases ih false h with h2 | h2
              · exact Or.inl (List.mem_cons.mpr (Or.inr h2))
              · exact Or.inr h2
          · rw [show collapseGo false (c₁ :: c₂ :: r₂) =
              ' ' :: collapseGo true (c₂ :: r₂) from by simp [collapseGo, hc, hc₂]] at hm
            rcases List.mem_cons.mp hm with h | h
            · exact Or.inr h
            · rcases ih true h with h2 | h2
              · exact Or.inl (List.mem_cons.mpr (Or.inr h2))
              · exact Or.inr h2
    · cases hc : jsWs c₁
      · rw [show collapseGo true (c₁ :: rest) = c₁ :: collapseGo false rest from by
          simp [collapseGo, hc]] at hm
        rcases List.mem_cons.mp hm with h | h
        · exact Or.inl (List.mem_cons.mpr (Or.inl h))
        · rcases ih false h with h2 | h2
          · exact Or.inl (List.mem_cons.mpr (Or.inr h2))
          · exact Or.inr h2
      · rw [show collapseGo true (c₁ :: rest) = collapseGo true rest from by
          simp [collapseGo, hc]] at hm
        rcases ih true hm with h2 | h2
        · exact Or.inl (List.mem_cons.mpr (Or.inr h2))
        · exact Or.inr h2



theorem dropWhile_dropWhile_same (p : Char → Bool) (l : List Char) :
    (l.dropWhile p).dropWhile p = l.dropWhile p := by
  induction l with
  | nil => rfl
  | cons c rest ih =>
    cases hc : p c
    · simp [List.dropWhile_cons, hc]
    · simp [List.dropWhile_cons, hc, ih]

theorem head_dropWhile_false (p : Char → Bool) (l : List Char) (y : Char)
    (hy : (l.dropWhile p).head? = some y) : p y = false := by
  have h := List.head?_dropWhile_not p l
  rw [hy] at h
  exact h

theorem mem_dropWhile {c : Char} (p : Char → Bool) (l : List Char)
    (h : c ∈ l.dropWhile p) : c ∈ l := by
  have h2 : c ∈ l.takeWhile p ++ l.dropWhile p := List.mem_append.mpr (Or.inr h)
  rwa [List.takeWhile_append_dropWhile] at h2

theorem mem_trimWs {c : Char} (l : List Char) (h : c ∈ trimWs l) : c ∈ l := by
  unfold trimWs at h
  rw [List.mem_reverse] at h
  have h2 := mem_dropWhile _ _ h
  rw [List.mem_reverse] at h2
  exact mem_dropWhile _ _ h2

theorem trimWs_trimWs (l : List Char) : trimWs (trimWs l) = trimWs l := by
  unfold trimWs
  set A := l.dropWhile jsWs with hA
  set B := A.reverse.dropWhile jsWs with hB
  have hBrev : B.reverse.dropWhile jsWs = B.reverse := by
    cases hBr : B.reverse with
    | nil => rfl
    | cons c bs =>
      have hsplit : A.reverse.takeWhile jsWs ++ B = A.reverse :=
        List.takeWhile_append_dropWhile jsWs A.reverse
      have hA2 : A = B.reverse ++ (A.reverse.takeWhile jsWs).reverse := by
        have h := congrArg List.reverse hsplit
        rw [List.reverse_append, List.reverse_reverse] at h
        exact h.symm
      rw [hBr] at hA2
      have hhead : (l.dropWhile jsWs).head? = some c := by
        rw [← hA, hA2]; rfl
      have hc : jsWs c = false := head_dropWhile_false jsWs l c hhead
      rw [List.dropWhile_cons_of_neg (by simp [hc])]
  rw [hBrev, List.reverse_reverse, hB, dropWhile_dropWhile_same]

theorem chain_reverse_wsSep {l : List Char} (h : List.Chain' wsSep l) :
    List.Chain' wsSep l.reverse := by
  rw [List.chain'_reverse]
  exact h.imp (fun a b hab => fun hc => hab ⟨hc.2, hc.1⟩)

theorem chain_dropWhile {p : Char → Bool} {l : List Char}
    (h : List.Chain' wsSep l) : List.Chain' wsSep (l.dropWhile p) := by
  rw [← List.takeWhile_append_dropWhile p l] at h
  exact (List.chain'_append.mp h).2.1

theorem chain_trimWs {l : List Char} (h : List.Chain' wsSep l) :
    List.Chain' wsSep (trimWs l) := by
  unfold trimWs
  exact chain_reverse_wsSep (chain_dropWhile (chain_reverse_wsSep (chain_dropWhile h)))

theorem map_id_of_mem {f : Char → Char} (l : List Char)
    (h : ∀ c ∈ l, f c = c) : l.map f = l := by
  induction l with
  | nil => rfl
  | cons c rest ih =>
    rw [List.map_cons, h c (by simp), ih (fun x hx => h x (by simp [hx]))]

theorem inert_parts {c : Char} (h : inert c = true) :
    lowerCh c = c ∧ substI c = c ∧ substA c = c ∧ substS c = c ∧ substO c = c ∧
    substE c = c ∧ substT c = c ∧ goodCh c = true ∧ (c == '@') = false := by
  unfold inert at h
  simp only [Bool.and_eq_true, beq_iff_eq, Bool.not_eq_true'] at h
  tauto

theorem normalizeL_eq_map (l : List Char) :
    normalizeL l = trimWs (collapseWs (l.map (fun c => filterCh (chSub c)))) := by
  unfold normalizeL
  refine congrArg trimWs (congrArg collapseWs ?_)
  rw [List.map_map, List.map_map, List.map_map, List.map_map, List.map_map,
    List.map_map, List.map_map]
  simp only [Function.comp_def]
  rfl

theorem inert_normalizeL (l : List Char) :
    ∀ c ∈ normalizeL l, inert c = true := by
  intro c hc
  rw [normalizeL_eq_map] at hc
  have hc2 := mem_trimWs _ hc
  unfold collapseWs at hc2
  rcases mem_collapseGo _ false hc2 with h | h
  · rcases List.mem_map.mp h with ⟨c₀, _, hco⟩
    rw [← hco]; exact inert_filter_chSub c₀
  · rw [h]; decide

theorem chain_normalizeL (l : List Char) : List.Chain' wsSep (normalizeL l) := by
  unfold normalizeL collapseWs
  exact chain_trimWs (chain_collapseGo _ false)

theorem trim_normalizeL (l : List Char) : trimWs (normalizeL l) = normalizeL l := by
  unfold normalizeL
  exact trimWs_trimWs _

theorem normalizeL_fixed (l : List Char)
    (hin : ∀ c ∈ l, inert c = true)
    (hch : List.Chain' wsSep l)
    (htr : trimWs l = l) : normalizeL l = l := by
  have e1 : l.map lowerCh = l :=
    map_id_of_mem l (fun c hc => (inert_parts (hin c hc)).1)
  have e2 : l.map substI = l :=
    map_id_of_mem l (fun c hc => (inert_parts (hin c hc)).2.1)
  have e3 : l.map substA = l :=
    map_id_of_mem l (fun c hc => (inert_parts (hin c hc)).2.2.1)
  have e4 : l.map substS = l :=
    map_id_of_mem l (fun c hc => (inert_parts (hin c hc)).2.2.2.1)
  have e5 : l.map substO = l :=
    map_id_of_mem l (fun c hc => (inert_parts (hin c hc)).2.2.2.2.1)
  have e6 : l.map substE = l :=
    map_id_of_mem l (fun c hc => (inert_parts (hin c hc)).2.2.2.2.2.1)
  have e7 : l.map substT = l :=
    map_id_of_mem l (fun c hc => (inert_parts (hin c hc)).2.2.2.2.2.2.1)
  have e8 : l.map filterCh = l :=
    map_id_of_mem l (fun c hc => by
      unfold filterCh
      rw [if_pos (inert_parts (hin c hc)).2.2.2.2.2.2.2.1])
  unfold normalizeL collapseWs
  rw [e1, e2, e3, e4, e5, e6, e7, e8, collapseGo_false_of_chain l hch, htr]

theorem normalizeL_normalizeL (m : List Char) :
    normalizeL (normalizeL m) = normalizeL m :=
  normalizeL_fixed _ (inert_normalizeL m) (chain_normalizeL m) (trim_normalizeL m)

/--
C2: `normalize` is a pure total function on strings (it is a Lean
function), it is idempotent — `normalize (normalize x) = normalize x`
for every string `x` — and it maps the empty string to the empty string.
-/
theorem normalize_pure_idempotent :
    (∀ x : String, normalize (normalize x) = normalize x) ∧ normalize "" = "" := by
  constructor
  · intro x
    exact congrArg String.mk (normalizeL_normalizeL x.data)
  · rfl

/--
C8: for every input string the output of `normalize` contains no literal
at-sign: the substitution rule `[@4] → a` runs before the character
filter, so although the filter class would keep `@` (second conjunct),
no at-sign survives to reach it.
-/
theorem normalize_no_at :
    (∀ s : String, (normalize s).data.all (fun c => !(c == '@')) = true) ∧
    filterCh '@' = '@' ∧ substA '@' = 'a' := by
  refine ⟨fun s => ?_, by decide, by decide⟩
  rw [List.all_eq_true]
  intro c hc
  have h := inert_parts (inert_normalizeL s.data c hc)
  rw [h.2.2.2.2.2.2.2.2]
  rfl


/-! ### Lemmas about the handler and the configuration -/

/-- The `toxicHit` accumulator of the score loop is a disjunction over the
predictions, for any initial accumulator. -/
theorem scoreLoop_snd (lbs : List String) (t : JSNum) :
    ∀ (preds : List Pred) (m : List (String × Rat)) (h0 : Bool),
      (preds.foldl (fun acc p =>
        (insertScore acc.1 p.label (round4 (predScore p)),
         acc.2 || (lbs.contains p.label && jsGe (predScore p) t))) (m, h0)).2
      = (h0 || preds.any (fun p => lbs.contains p.label && jsGe (predScore p) t)) := by
  intro preds
  induction preds with
  | nil => intro m h0; simp
  | cons p rest ih =>
    intro m h0
    rw [List.foldl_cons, ih]
    simp [Bool.or_assoc]

/-- `toxicHit` is true exactly when some prediction whose label is in the
configured list has raw score at least the threshold. -/
theorem scoreLoop_toxicHit (lbs : List String) (t : JSNum) (preds : List Pred) :
    (scoreLoop lbs t preds).2 =
      preds.any (fun p => lbs.contains p.label && jsGe (predScore p) t) := by
  unfold scoreLoop
  rw [scoreLoop_snd]
  simp

/-- A string field is its own destructuring default. -/
theorem jsDefault_vstr (s : String) (d : JSVal) : jsDefault (.vstr s) d = .vstr s := rfl

/-- Truthiness of a JS string is non-emptiness. -/
theorem jsTruthy_vstr (s : String) : jsTruthy (.vstr s) = !(s == "") := rfl

/-- A JS string is a string. -/
theorem jsIsString_vstr (s : String) : jsIsString (.vstr s) = true := rfl

/-- String projection of a string value. -/
theorem jsStr_vstr (s : String) : jsStr (.vstr s) = s := rfl

/-- ToString on a string value. -/
theorem jsToString_vstr (s : String) : jsToString (.vstr s) = s := rfl

/--
C1: for every POST request that passes validation and the self-message
filter and whose classification succeeds with predictions `preds`, the
`foul` field of the returned result is true if and only if the lexicon
check on the normalized text returns true OR at least one prediction whose
label is in the configured label list has a score meeting the configured
threshold (under the JS comparison `jsGe`, which is false on a `NaN`
threshold); each disjunct alone suffices, since this is an iff with a
disjunction.
-/
theorem foul_iff_lexicon_or_toxic
    (env : Env) (lex : String → Bool) (cls : String → Except String (List Pred))
    (b : Body) (s : String) (preds : List Pred)
    (f : Bool) (inp nrm : String) (lx : Bool) (sc : List (String × Rat))
    (th : JSNum) (lb : List String)
    (ht : b.text = .vstr s)
    (hcls : cls (normalize s) = .ok preds)
    (hresp : handler env lex cls ⟨"POST", some b⟩ =
      ⟨200, .result f inp nrm lx sc th lb⟩) :
    f = true ↔ lex (normalize s) = true ∨
      ∃ p ∈ preds, (LABELS env).contains p.label = true ∧
        jsGe (predScore p) (THRESH env) = true := by
  unfold handler at hresp
  simp only [Option.getD_some, ht, jsDefault_vstr, jsTruthy_vstr,
    jsIsString_vstr, jsStr_vstr] at hresp
  rw [if_neg (by decide)] at hresp
  rw [if_neg (by decide)] at hresp
  simp only [Bool.not_not, Bool.not_true, Bool.or_false] at hresp
  cases hse : s == ""
  · rw [hse] at hresp
    rw [if_neg (by decide)] at hresp
    cases hsk : selfSkip (jsDefault b.fromUser (.vstr ""))
        (jsDefault b.botName (.vstr ""))
    · rw [hsk] at hresp
      rw [if_neg (by decide)] at hresp
      rw [hcls] at hresp
      simp only [Response.mk.injEq, RespBody.result.injEq] at hresp
      rw [← hresp.2.1]
      simp only [Bool.or_eq_true, scoreLoop_toxicHit, List.any_eq_true,
        Bool.and_eq_true]
    · rw [hsk] at hresp
      rw [if_pos (by decide)] at hresp
      simp at hresp
  · rw [hse] at hresp
    rw [if_pos (by decide)] at hresp
    simp at hresp

/-- Witness for C1: a concrete request on which the handler returns a
result body, instantiating the iff. -/
theorem foul_iff_witness :
    true = true ↔ ((fun _ => true) (normalize "hi") = true ∨
      ∃ p ∈ ([] : List Pred),
        (LABELS ⟨none, none, none, none⟩).contains p.label = true ∧
        jsGe (predScore p) (THRESH ⟨none, none, none, none⟩) = true) :=
  foul_iff_lexicon_or_toxic ⟨none, none, none, none⟩ (fun _ => true)
    (fun _ => .ok []) ⟨.vstr "hi", .vundef, .vundef⟩ "hi" [] true "hi" "hi"
    true [] (THRESH ⟨none, none, none, none⟩) (LABELS ⟨none, none, none, none⟩)
    rfl rfl rfl

/--
C3 (amended): for every POST request whose `text` is a non-empty string
and in which `fromUser` and `botName` are both non-empty strings such that
the lower-cased `fromUser` contains the lower-cased `botName` as a
substring, the handler short-circuits before any detection (the response
does not depend on `lex` or `cls`) and responds HTTP 200 with exactly the
body `{foul: false, skipped: true, reason: "self_message"}`.  The
validity condition on `text` is required because validation runs before
the self-message filter (see the counterexample).
-/
theorem self_message_requires_valid_text
    (env : Env) (lex : String → Bool) (cls : String → Except String (List Pred))
    (b : Body) (s u v : String)
    (ht : b.text = .vstr s) (hs : (s == "") = false)
    (hu : b.fromUser = .vstr u) (hv : b.botName = .vstr v)
    (hu2 : (u == "") = false) (hv2 : (v == "") = false)
    (hinc : jsIncludes (jsToLower u) (jsToLower v) = true) :
    handler env lex cls ⟨"POST", some b⟩ =
      ⟨200, .skipped false true "self_message"⟩ := by
  have hskip : selfSkip (jsDefault b.fromUser (.vstr ""))
      (jsDefault b.botName (.vstr "")) = true := by
    rw [hu, hv, jsDefault_vstr, jsDefault_vstr]
    unfold selfSkip
    rw [jsTruthy_vstr, jsTruthy_vstr, jsToString_vstr, jsToString_vstr,
      hu2, hv2, hinc]
    rfl
  unfold handler
  simp only [Option.getD_some, ht, jsDefault_vstr, jsTruthy_vstr,
    jsIsString_vstr, Bool.not_not, Bool.not_true, Bool.or_false]
  rw [if_neg (by decide), if_neg (by decide)]
  rw [hs]
  rw [if_neg (by decide)]
  rw [if_pos hskip]

/-- Counterexample to C3 as stated: with empty `text`, matching non-empty
`fromUser = "botuser"` and `botName = "bot"`, the handler responds 400
`text_required`, not the skipped body — validation precedes the
self-message filter, so the response is not independent of the text. -/
theorem self_message_counterexample :
    handler ⟨none, none, none, none⟩ (fun _ => false) (fun _ => .ok [])
      ⟨"POST", some ⟨.vstr "", .vstr "botuser", .vstr "bot"⟩⟩ =
      ⟨400, .errorBody "text_required"⟩ ∧
    ¬ handler ⟨none, none, none, none⟩ (fun _ => false) (fun _ => .ok [])
      ⟨"POST", some ⟨.vstr "", .vstr "botuser", .vstr "bot"⟩⟩ =
      ⟨200, .skipped false true "self_message"⟩ ∧
    jsIncludes (jsToLower "botuser") (jsToLower "bot") = true := by
  refine ⟨rfl, ?_, rfl⟩
  intro h
  rw [show handler ⟨none, none, none, none⟩ (fun _ => false) (fun _ => .ok [])
      ⟨"POST", some ⟨.vstr "", .vstr "botuser", .vstr "bot"⟩⟩ =
      ⟨400, .errorBody "text_required"⟩ from rfl] at h
  simp at h

/-- Witness for the amended C3 at a concrete request. -/
theorem self_message_witness :
    handler ⟨none, none, none, none⟩ (fun _ => false) (fun _ => .ok [])
      ⟨"POST", some ⟨.vstr "hello", .vstr "botuser", .vstr "bot"⟩⟩ =
      ⟨200, .skipped false true "self_message"⟩ :=
  self_message_requires_valid_text ⟨none, none, none, none⟩ (fun _ => false)
    (fun _ => .ok []) ⟨.vstr "hello", .vstr "botuser", .vstr "bot"⟩
    "hello" "botuser" "bot" rfl rfl rfl rfl rfl rfl (by decide)

/--
C4: for every POST request whose body is missing the `text` field (it is
`undefined`), or whose `text` is not a string, or whose `text` is the
empty string, the handler responds HTTP 400 with body
`{error: "text_required"}`; the response is the same for every `lex` and
`cls`, so no normalization or detection is performed.
-/
theorem invalid_text_yields_400
    (env : Env) (lex : String → Bool) (cls : String → Except String (List Pred))
    (req : Request) (hm : req.method = "POST")
    (h : req.body = none ∨ ∃ b, req.body = some b ∧
      (b.text = .vundef ∨ (∀ s, ¬ b.text = .vstr s) ∨ b.text = .vstr "")) :
    handler env lex cls req = ⟨400, .errorBody "text_required"⟩ := by
  obtain ⟨m, bo⟩ := req
  simp only at hm
  subst hm
  rcases h with h | ⟨b, hb, hcase⟩
  · simp only at h
    subst h
    rfl
  · simp only at hb
    subst hb
    unfold handler
    simp only [Option.getD_some]
    rw [if_neg (by decide), if_neg (by decide)]
    rcases hcase with h1 | h1 | h1
    · simp only [h1]; rfl
    · cases hx : b.text with
      | vstr s2 => exact absurd hx (h1 s2)
      | vundef => rfl
      | vnum n => rw [if_pos (by simp [jsDefault, jsIsString])]
      | vbool bb => rw [if_pos (by simp [jsDefault, jsIsString])]
      | vnull => rw [if_pos (by simp [jsDefault, jsIsString])]
      | vobj => rw [if_pos (by simp [jsDefault, jsIsString])]
    · simp only [h1]; rfl

/-- Witness for C4 at a concrete request with a null `text`. -/
theorem invalid_text_witness :
    handler ⟨none, none, none, none⟩ (fun _ => false) (fun _ => .ok [])
      ⟨"POST", some ⟨.vnull, .vundef, .vundef⟩⟩ =
      ⟨400, .errorBody "text_required"⟩ :=
  invalid_text_yields_400 ⟨none, none, none, none⟩ (fun _ => false)
    (fun _ => .ok []) ⟨"POST", some ⟨.vnull, .vundef, .vundef⟩⟩ rfl
    (Or.inr ⟨⟨.vnull, .vundef, .vundef⟩, rfl,
      Or.inr (Or.inl (fun _ h => JSVal.noConfusion h))⟩)

/--
C5: with a finite configured threshold `t`, the toxic-hit flag of the
score loop equals a disjunction comparing the RAW (un-rounded) score of
every prediction against `t` with `≤` (that is, `score >= t`), uniformly
for every label; in particular a prediction whose label is configured and
whose raw score is exactly `t` makes the flag true (`>=`, not `>`).
-/
theorem threshold_boundary_raw (lbs : List String) (t : Rat) (preds : List Pred) :
    ((scoreLoop lbs (some t) preds).2 =
      preds.any (fun p => lbs.contains p.label && decide (t ≤ predScore p))) ∧
    (∀ p ∈ preds, lbs.contains p.label = true → predScore p = t →
      (scoreLoop lbs (some t) preds).2 = true) := by
  constructor
  · rw [scoreLoop_toxicHit]
    simp only [jsGe]
  · intro p hp hc hsc
    rw [scoreLoop_toxicHit, List.any_eq_true]
    exact ⟨p, hp, by rw [hc, hsc]; simp [jsGe]⟩

/-- Witness for C5 at a concrete label list, threshold and prediction with
score exactly at the threshold. -/
theorem threshold_boundary_witness :
    ((scoreLoop ["insult"] (some ((17 : Rat) / 20))
        [⟨"insult", [⟨[0, (17 : Rat) / 20]⟩]⟩]).2 =
      ([⟨"insult", [⟨[0, (17 : Rat) / 20]⟩]⟩] : List Pred).any
        (fun p => (["insult"] : List String).contains p.label &&
          decide ((17 : Rat) / 20 ≤ predScore p))) ∧
    (∀ p ∈ ([⟨"insult", [⟨[0, (17 : Rat) / 20]⟩]⟩] : List Pred),
      (["insult"] : List String).contains p.label = true →
      predScore p = (17 : Rat) / 20 →
      (scoreLoop ["insult"] (some ((17 : Rat) / 20))
        [⟨"insult", [⟨[0, (17 : Rat) / 20]⟩]⟩]).2 = true) :=
  threshold_boundary_raw ["insult"] ((17 : Rat) / 20)
    [⟨"insult", [⟨[0, (17 : Rat) / 20]⟩]⟩]

/-- The default threshold string parses to `0.85`. -/
theorem jsStringToNumber_085 :
    jsStringToNumber "0.85" = some ((85 : Rat) / 100) := by
  have hred : jsStringToNumber "0.85" =
      some ((digitsToNat ['0'] : Rat) +
        (digitsToNat ['8', '5'] : Rat) /
          ((10 : Rat) ^ (['8', '5'] : List Char).length)) := rfl
  rw [hred]
  simp only [Option.some.injEq, show digitsToNat ['0'] = 0 from rfl,
    show digitsToNat ['8', '5'] = 85 from rfl, List.length_cons, List.length_nil]
  push_cast
  norm_num

/-- Counterexample to C6 as stated: with the threshold variable set to the
non-numeric string "abc", the effective threshold is `NaN` (`none`), not
`0.85` — `Number(x || "0.85")` only falls back when the variable is absent
or empty. -/
theorem thresh_nonnumeric_counterexample :
    THRESH ⟨some "abc", none, none, none⟩ = none ∧
    ¬ THRESH ⟨some "abc", none, none, none⟩ = some ((85 : Rat) / 100) ∧
    jsStringToNumber "abc" = none := by
  refine ⟨rfl, ?_, rfl⟩
  intro h
  rw [show THRESH ⟨some "abc", none, none, none⟩ = none from rfl] at h
  exact Option.noConfusion h

/--
C6 (amended): the threshold falls back to 0.85 only when the environment
variable is absent or the empty string; when it is present, non-empty and
does not parse as a number, the effective threshold is `NaN` (`none`),
under which every score comparison is false, so the classifier can never
contribute a toxic hit.
-/
theorem thresh_fallback_amended :
    (∀ lb co cw, THRESH ⟨none, lb, co, cw⟩ = some ((85 : Rat) / 100)) ∧
    (∀ lb co cw, THRESH ⟨some "", lb, co, cw⟩ = some ((85 : Rat) / 100)) ∧
    (∀ s lb co cw, (s == "") = false → jsStringToNumber s = none →
      THRESH ⟨some s, lb, co, cw⟩ = none) ∧
    (∀ q : Rat, jsGe q none = false) := by
  refine ⟨fun lb co cw => jsStringToNumber_085,
    fun lb co cw => jsStringToNumber_085,
    fun s lb co cw hs hn => ?_, fun q => rfl⟩
  show jsStringToNumber (envOr (some s) "0.85") = none
  rw [show envOr (some s) "0.85" = if s == "" then "0.85" else s from rfl,
    hs, if_neg (by decide)]
  exact hn

/-- Witness for the amended C6 at the concrete string "abc". -/
theorem thresh_fallback_witness :
    THRESH ⟨some "abc", none, none, none⟩ = none :=
  thresh_fallback_amended.2.2.1 "abc" none none none rfl rfl

/-- Counterexample to C7 as stated: with the labels variable set to ",",
the split/trim/filter result is empty and the effective label list is
empty, not the default six-label list — the `||` fallback only fires when
the variable is absent or the empty string. -/
theorem labels_empty_counterexample :
    LABELS ⟨none, some ",", none, none⟩ = [] ∧
    ¬ LABELS ⟨none, some ",", none, none⟩ =
      ["identity_attack", "insult", "obscene", "sexual_explicit",
        "threat", "severe_toxicity"] ∧
    splitTrimFilter "," = [] := by
  refine ⟨rfl, ?_, rfl⟩
  intro h
  rw [show LABELS ⟨none, some ",", none, none⟩ = [] from rfl] at h
  exact List.noConfusion h

/--
C7 (amended): the label list falls back to the default six labels only
when the environment variable is absent or the empty string; when it is
present and non-empty, the effective list is exactly the
split/trim/filter of its value — in particular an all-separator value such
as "," yields the empty label list, with no fallback.
-/
theorem labels_fallback_amended :
    (∀ th co cw, LABELS ⟨th, none, co, cw⟩ =
      ["identity_attack", "insult", "obscene", "sexual_explicit",
        "threat", "severe_toxicity"]) ∧
    (∀ th co cw, LABELS ⟨th, some "", co, cw⟩ =
      ["identity_attack", "insult", "obscene", "sexual_explicit",
        "threat", "severe_toxicity"]) ∧
    (∀ s th co cw, (s == "") = false →
      LABELS ⟨th, some s, co, cw⟩ = splitTrimFilter s) := by
  refine ⟨fun th co cw => rfl, fun th co cw => rfl,
    fun s th co cw hs => ?_⟩
  show splitTrimFilter (envOr (some s)
    "identity_attack,insult,obscene,sexual_explicit,threat,severe_toxicity") =
    splitTrimFilter s
  rw [show envOr (some s)
      "identity_attack,insult,obscene,sexual_explicit,threat,severe_toxicity" =
      if s == "" then
        "identity_attack,insult,obscene,sexual_explicit,threat,severe_toxicity"
      else s from rfl,
    hs, if_neg (by decide)]

/-- Witness for the amended C7 at the concrete string ",". -/
theorem labels_fallback_witness :
    LABELS ⟨none, some ",", none, none⟩ = splitTrimFilter "," :=
  labels_fallback_amended.2.2 "," none none none rfl

/--
C9: whenever the classifier pipeline fails (modelled by `cls` returning an
error, covering both `toxicity.load` and `model.classify` throwing), the
handler responds HTTP 500 with exactly `{error: "moderation_failed"}`.
The response is the same for every error detail `e` (no detail is leaked)
and for every lexicon `lex` (no lexicon-only partial result is returned,
although the lexicon check has already run by that point in the source).
-/
theorem classifier_failure_500
    (env : Env) (lex : String → Bool) (cls : String → Except String (List Pred))
    (b : Body) (s e : String)
    (ht : b.text = .vstr s) (hs : (s == "") = false)
    (hself : selfSkip (jsDefault b.fromUser (.vstr ""))
      (jsDefault b.botName (.vstr "")) = false)
    (hcls : cls (normalize s) = .error e) :
    handler env lex cls ⟨"POST", some b⟩ =
      ⟨500, .errorBody "moderation_failed"⟩ := by
  unfold handler
  simp only [Option.getD_some, ht, jsDefault_vstr, jsTruthy_vstr,
    jsIsString_vstr, jsStr_vstr, Bool.not_not, Bool.not_true, Bool.or_false]
  rw [if_neg (by decide), if_neg (by decide)]
  rw [hs]
  rw [if_neg (by decide)]
  rw [hself]
  rw [if_neg (by decide)]
  rw [hcls]

/-- Witness for C9 at a concrete failing classifier. -/
theorem classifier_failure_witness :
    handler ⟨none, none, none, none⟩ (fun _ => false)
      (fun _ => .error "model load failed")
      ⟨"POST", some ⟨.vstr "hi", .vundef, .vundef⟩⟩ =
      ⟨500, .errorBody "moderation_failed"⟩ :=
  classifier_failure_500 ⟨none, none, none, none⟩ (fun _ => false)
    (fun _ => .error "model load failed") ⟨.vstr "hi", .vundef, .vundef⟩
    "hi" "model load failed" rfl rfl rfl rfl

/--
C10: a POST request with an absent (null or undefined) body raises no
exception in the embedding: `req.body || {}` makes the handler treat it as
an empty object, the text check fails, and the response is HTTP 400
`{error: "text_required"}` for every configuration, lexicon and
classifier — never an HTTP 500.
-/
theorem missing_body_yields_400
    (env : Env) (lex : String → Bool) (cls : String → Except String (List Pred)) :
    handler env lex cls ⟨"POST", none⟩ = ⟨400, .errorBody "text_required"⟩ := rfl


end Moderate
